import Mathlib

/-!
Shallow embedding of the `data_mining_flight` repository
(`src/data_mining_flight/truncate_data.py` and
`src/data_mining_flight/data_fetching.py`).

Modelling conventions.

A CSV file is a header (list of column names) together with a list of data
rows.  Each cell is an `Option String`: `none` models an empty field, which
pandas reads as a missing value (`pd.NA` under `dtype="string"`, `NaN`
otherwise).  Cell values are compared as raw strings, matching the exact
string comparison the script performs on its date column.

`pd.read_csv(..., chunksize=n)` is modelled by `chunksOf n`, which splits the
row list into consecutive batches.  On a source with zero data rows the
pandas reader yields a single empty chunk (still carrying the header's
columns), while `chunksOf n [] = []`; an empty chunk contributes nothing to
any fold in this program (its `value_counts` is empty, its filtered rows are
empty), so the two conventions agree everywhere except the per-chunk
missing-column check of `write_truncated_day`, which does run on that empty
first chunk — that case is modelled explicitly there.

The Python `dict` accumulated by `compute_daily_counts` is modelled as an
association list updated in insertion order (`updateCount`); `sorted` on the
final `dict.items()` is modelled by `sortPairs` (insertion sort by key; the
keys are distinct, so sorting pairs lexicographically as Python does agrees
with sorting by key).  `Series.value_counts()` is modelled by `valueCounts`:
each distinct non-missing value of the chunk paired with its multiplicity
(its iteration order — pandas orders by descending count — only affects dict
insertion order, which the final `sorted` erases; here first-occurrence
order is used).

Fallible operations return `Except String`; a raised, uncaught Python
exception is an `.error`.  Writing the truncated output file is modelled by
returning `Option (List Row)`: `none` means the file was never created.
-/

namespace DataMiningFlight

/-- Cell of a CSV data row: `none` is an empty field (missing value). -/
abbrev Cell := Option String

/-- Row of a CSV file. -/
abbrev Row := List Cell

/-- CSV file: the header names and the data rows, in file order. -/
structure Csv where
  header : List String
  rows : List Row
deriving DecidableEq, Repr

/-- Index of a named column in a header, as pandas resolves column labels:
the position of the first header cell equal to the label, if any. -/
def colIndex? (header : List String) (col : String) : Option Nat :=
  match header with
  | [] => none
  | h :: t => if h = col then some 0 else (colIndex? t col).map (· + 1)

instance {ε α : Type _} [DecidableEq ε] [DecidableEq α] :
    DecidableEq (Except ε α) := fun x y =>
  match x, y with
  | .ok a, .ok b =>
      if h : a = b then .isTrue (by rw [h])
      else .isFalse (fun hc => h (Except.ok.inj hc))
  | .error a, .error b =>
      if h : a = b then .isTrue (by rw [h])
      else .isFalse (fun hc => h (Except.error.inj hc))
  | .ok _, .error _ => .isFalse (fun hc => Except.noConfusion hc)
  | .error _, .ok _ => .isFalse (fun hc => Except.noConfusion hc)

/-- Cell of a row at column index `i`; a short (ragged) row is padded with
missing values, as pandas does. -/
def cellAt (r : Row) (i : Nat) : Cell :=
  r.getD i none

/-- Recursion core of `chunksOf`, structural on a fuel argument so that the
definition evaluates by kernel reduction; the fuel is always at least the
length of the list, so the middle branch is never taken. -/
def chunksOfAux (n : Nat) : Nat → List α → List (List α)
  | _, [] => []
  | 0, _ :: _ => []
  | fuel + 1, x :: xs =>
      (x :: xs.take (n - 1)) :: chunksOfAux n fuel (xs.drop (n - 1))

/-- Splitting a list into consecutive chunks of `n` elements (the last chunk
may be shorter), as `pd.read_csv(..., chunksize=n)` yields row batches.
For a list with no elements this yields no chunks, whereas pandas yields one
empty chunk; see the module comment for why the difference is observable
only in the missing-column check of `write_truncated_day`, where it is
modelled explicitly.  (Each chunk is one head element plus `n - 1` more, so
for every `n ≥ 1` this is chunking by `n`.) -/
def chunksOf (n : Nat) (l : List α) : List (List α) :=
  chunksOfAux n l.length l

/-- Number of occurrences of the (non-missing) value `d` in a column. -/
def countVal (col : List Cell) (d : String) : Nat :=
  (col.filter fun c => c = some d).length

/-- Model of `Series.value_counts()` on a chunk of the date column: each
distinct non-missing value with its multiplicity.  Missing values are
dropped (`dropna=True` is the pandas default). -/
def valueCounts (chunk : List Cell) : List (String × Nat) :=
  (chunk.filterMap id).dedup.map fun d => (d, countVal chunk d)

/-- Model of the Python statement `counts[d] = counts.get(d, 0) + c` on a
dict represented as an association list: add `c` to the entry for `d`,
appending a fresh entry if `d` is absent. -/
def updateCount : List (String × Nat) → String → Nat → List (String × Nat)
  | [], d, c => [(d, c)]
  | (k, v) :: rest, d, c =>
      if k = d then (k, v + c) :: rest else (k, v) :: updateCount rest d c

/-- Folding a list of `(value, count)` contributions into the running dict. -/
def accumulate (m : List (String × Nat)) (ps : List (String × Nat)) :
    List (String × Nat) :=
  ps.foldl (fun m p => updateCount m p.1 p.2) m

/-- Lexicographic comparison of character sequences by code point, as Python
compares strings. -/
def strLeB : List Char → List Char → Bool
  | [], _ => true
  | _ :: _, [] => false
  | x :: xs, y :: ys =>
      if x.toNat < y.toNat then true
      else if y.toNat < x.toNat then false
      else strLeB xs ys

/-- Python string comparison `a <= b`: code-point lexicographic order. -/
def strLe (a b : String) : Bool :=
  strLeB a.data b.data

/-- Key order on dict entries: Python's `sorted` on `(date, count)` tuples
compares the date component first, and the dates are distinct. -/
def keyLe (a b : String × Nat) : Prop :=
  strLe a.1 b.1 = true

instance : DecidableRel keyLe := fun a b => by
  unfold keyLe
  infer_instance

/-- Model of Python `sorted` on `dict.items()`: ascending by key (keys are
distinct, so lexicographic tuple order agrees with key order). -/
def sortPairs (m : List (String × Nat)) : List (String × Nat) :=
  m.insertionSort keyLe

/-- Chunked accumulation loop of `compute_daily_counts` (truncate_data.py,
lines 38–48): starting from the empty dict `counts = {}`, merge each chunk's
`value_counts()` into the running dict. -/
def chunkFold (col : List Cell) (chunksize : Nat) : List (String × Nat) :=
  (chunksOf chunksize col).foldl (fun m ch => accumulate m (valueCounts ch)) []

/-- Model of `compute_daily_counts` (truncate_data.py, lines 37–50): stream
the date column in chunks, merge each chunk's `value_counts()` into a
running dict, and emit the dict sorted by date.  `usecols=[date_column]` is
validated against the header when the reader is constructed, so a missing
column fails before any chunk is read. -/
def compute_daily_counts (csv : Csv) (date_column : String) (chunksize : Nat) :
    Except String (List (String × Nat)) :=
  match colIndex? csv.header date_column with
  | none => .error "Usecols do not match columns"
  | some i =>
      .ok (sortPairs (chunkFold (csv.rows.map fun r => cellAt r i) chunksize))

/-- Model of `get_middle_date` (truncate_data.py, lines 53–56): sort the
table by the date column and take the row at index `len // 2`; on an empty
table `.iloc` raises `IndexError`, modelled as `none`. -/
def get_middle_date (daily_counts : List (String × Nat)) : Option String :=
  let ordered := sortPairs daily_counts
  (ordered.get? (ordered.length / 2)).map Prod.fst

/-- Model of `write_truncated_day` (truncate_data.py, lines 59–68): stream
all columns in chunks; each chunk first checks that the date column is
present (raising `ValueError` otherwise), then the rows whose date cell
equals `target_date` are appended to the output file, which is first created
when the first non-empty filtered chunk is written.  The result is the file
content: `none` if no chunk ever matched (the file is never created).
The reader always yields at least one chunk — an empty one even for a
zero-data-row source — and every chunk carries the same columns (the
header), so whenever the column is missing the check fails on the very
first chunk; the missing-column branch below therefore errors
unconditionally.

`writeStep` is the loop body acting on one chunk: filter the chunk to the
rows matching the target date, skip the chunk if nothing matched, otherwise
write (`mode="w"` on the first write, creating the file, `mode="a"`
afterwards, appending). -/
def writeStep (i : Nat) (target_date : String) (out : Option (List Row))
    (ch : List Row) : Option (List Row) :=
  let filtered := ch.filter fun r => cellAt r i = some target_date
  if filtered.isEmpty then out else some (out.getD [] ++ filtered)

/-- Streaming extraction of `write_truncated_day`, folding `writeStep` over
the chunks; see the comment on `writeStep`. -/
def write_truncated_day (csv : Csv) (date_column : String)
    (target_date : String) (chunksize : Nat) :
    Except String (Option (List Row)) :=
  match colIndex? csv.header date_column with
  | some i =>
      .ok ((chunksOf chunksize csv.rows).foldl (writeStep i target_date) none)
  | none => .error "Column not found in CSV."

/-- Model of the date selection in `main` (truncate_data.py, line 117):
`middle_date = args.middle_date or get_middle_date(...)`.  Python's `or`
treats both an absent argument (`None`) and an empty string as falsy. -/
def selectDate (override : Option String) (daily_counts : List (String × Nat)) :
    Except String String :=
  let computed : Except String String :=
    match get_middle_date daily_counts with
    | some d => .ok d
    | none => .error "IndexError: single positional indexer is out-of-bounds"
  match override with
  | some s => if s = "" then computed else .ok s
  | none => computed

/-- Model of the pipeline body of `main` (truncate_data.py, lines 113–120):
compute the daily counts, select the middle date (or the override), and
write the truncated file.  No failure is caught; any error aborts the run. -/
def runMain (csv : Csv) (date_column : String) (chunksize : Nat)
    (middle_override : Option String) :
    Except String (List (String × Nat) × String × Option (List Row)) := do
  let daily_counts ← compute_daily_counts csv date_column chunksize
  let middle_date ← selectDate middle_override daily_counts
  let truncated ← write_truncated_day csv date_column middle_date chunksize
  .ok (daily_counts, middle_date, truncated)

/-! Model of `data_fetching.py`. -/

/-- Python exception as the fallback ladder in `load_dataset` observes it:
whether it is a `ValueError` (the only class the `except` clause catches),
and its message. -/
structure PyError where
  isValueError : Bool
  msg : String
deriving DecidableEq, Repr

/-- Parsing configuration passed to `kagglehub.dataset_load`
(data_fetching.py, lines 10–21). -/
structure ParseConfig where
  encoding : Option String
  engine : Option String
  sepAuto : Bool
  skipBadLines : Bool
deriving DecidableEq, Repr

/-- The three parsing configurations tried in order: default; latin-1; and
latin-1 with the lenient python engine, auto-detected separator and
skip-bad-lines (data_fetching.py, lines 10–21). -/
def attempts : List ParseConfig :=
  [⟨none, none, false, false⟩,
   ⟨some "latin-1", none, false, false⟩,
   ⟨some "latin-1", some "python", true, true⟩]

/-- Loop body of `load_dataset` (data_fetching.py, lines 22–33): try each
configuration in order; a `ValueError` is remembered in `last_err` and the
next configuration is tried; any other exception propagates immediately.
After the loop, `raise last_err` re-raises the final caught error (the
`none` case is unreachable for a non-empty attempt list). -/
def tryAttempts (fetch : ParseConfig → Except PyError α) :
    List ParseConfig → Option PyError → Except PyError α
  | [], last =>
      .error (last.getD ⟨false, "TypeError: exceptions must derive from BaseException"⟩)
  | cfg :: rest, _last =>
      match fetch cfg with
      | .ok v => .ok v
      | .error e =>
          if e.isValueError then tryAttempts fetch rest (some e)
          else .error e

/-- Model of `load_dataset` (data_fetching.py, lines 9–33), abstracted over
the external `kagglehub.dataset_load` call `fetch`. -/
def load_dataset (fetch : ParseConfig → Except PyError α) : Except PyError α :=
  tryAttempts fetch attempts none

/-! Observables used by the verification: key order, key lists, per-key and
total counts of a dict, and concrete oracles for `load_dataset`. -/

/-- Strict key order on dict entries. -/
def keyLt (a b : String × Nat) : Prop :=
  keyLe a b ∧ a.1 ≠ b.1

/-- Keys of a dict (association list). -/
def keysOf (m : List (String × Nat)) : List String :=
  m.map Prod.fst

/-- Total count recorded in a dict for a given key. -/
def keyCount : List (String × Nat) → String → Nat
  | [], _ => 0
  | p :: rest, d => (if p.1 = d then p.2 else 0) + keyCount rest d

/-- Sum of the counts recorded in a dict. -/
def countsSum (m : List (String × Nat)) : Nat :=
  (m.map Prod.snd).sum

/-- Oracle for `load_dataset` whose first (default-configuration) attempt
fails with an exception that is not a `ValueError` — say, a network error —
while every other configuration would succeed. -/
def fetchProbe : ParseConfig → Except PyError Unit := fun cfg =>
  if cfg.encoding = none then .error ⟨false, "ConnectionError: download failed"⟩
  else .ok ()

/-- Oracle for `load_dataset` whose every attempt fails with a `ValueError`
carrying the attempt's configured encoding in its message. -/
def fetchFail : ParseConfig → Except PyError Unit := fun cfg =>
  .error ⟨true, (cfg.encoding.getD "default") ++ "/"
    ++ (cfg.engine.getD "c") ++ ": parse failed"⟩

/-! Order theory for the string comparison used by `sortPairs`. -/

theorem char_eq_of_toNat_eq {a b : Char} (h : a.toNat = b.toNat) : a = b := by
  cases a
  cases b
  simp only [Char.toNat] at h
  congr 1
  exact UInt32.toNat.inj h

theorem strLeB_total : ∀ a b, strLeB a b = true ∨ strLeB b a = true
  | [], _ => Or.inl rfl
  | _ :: _, [] => Or.inr rfl
  | x :: xs, y :: ys => by
      simp only [strLeB]
      rcases Nat.lt_trichotomy x.toNat y.toNat with h | h | h
      · simp [h]
      · simp only [h, lt_irrefl, if_false]
        exact strLeB_total xs ys
      · simp [h, Nat.lt_asymm h]

theorem strLeB_trans : ∀ a b c, strLeB a b = true → strLeB b c = true →
    strLeB a c = true
  | [], _, _, _, _ => rfl
  | _ :: _, [], _, h, _ => by simp [strLeB] at h
  | _ :: _, _ :: _, [], _, h2 => by simp [strLeB] at h2
  | x :: xs, y :: ys, z :: zs, h1, h2 => by
      simp only [strLeB] at h1 h2 ⊢
      rcases Nat.lt_trichotomy x.toNat y.toNat with hxy | hxy | hxy
      · rcases Nat.lt_trichotomy y.toNat z.toNat with hyz | hyz | hyz
        · simp [Nat.lt_trans hxy hyz]
        · simp [hyz ▸ hxy]
        · simp [Nat.lt_asymm hyz, hyz] at h2
      · rcases Nat.lt_trichotomy y.toNat z.toNat with hyz | hyz | hyz
        · simp [hxy ▸ hyz]
        · have hxz : x.toNat = z.toNat := hxy.trans hyz
          simp only [lt_irrefl, hxy, hyz, hxz, if_false] at h1 h2 ⊢
          exact strLeB_trans xs ys zs h1 h2
        · simp [Nat.lt_asymm hyz, hyz] at h2
      · simp [Nat.lt_asymm hxy, hxy] at h1

theorem strLeB_antisymm : ∀ a b, strLeB a b = true → strLeB b a = true → a = b
  | [], [], _, _ => rfl
  | [], _ :: _, _, h2 => by simp [strLeB] at h2
  | _ :: _, [], h1, _ => by simp [strLeB] at h1
  | x :: xs, y :: ys, h1, h2 => by
      simp only [strLeB] at h1 h2
      rcases Nat.lt_trichotomy x.toNat y.toNat with h | h | h
      · simp [h, Nat.lt_asymm h] at h2
      · simp only [h, lt_irrefl, if_false] at h1 h2
        rw [char_eq_of_toNat_eq h, strLeB_antisymm xs ys h1 h2]
      · simp [h, Nat.lt_asymm h] at h1

theorem strLe_antisymm {a b : String} (h1 : strLe a b = true)
    (h2 : strLe b a = true) : a = b := by
  cases a
  cases b
  simp only [strLe] at h1 h2
  congr 1
  exact strLeB_antisymm _ _ h1 h2

theorem keyLe_total (a b : String × Nat) : keyLe a b ∨ keyLe b a :=
  strLeB_total a.1.data b.1.data

theorem keyLe_trans {a b c : String × Nat} (h1 : keyLe a b) (h2 : keyLe b c) :
    keyLe a c :=
  strLeB_trans a.1.data b.1.data c.1.data h1 h2

theorem keyLt_antisymm {a b : String × Nat} (h1 : keyLt a b) (h2 : keyLt b a) :
    a = b :=
  absurd (strLe_antisymm h1.1 h2.1) h1.2

/-! Accounting for the running dict of `compute_daily_counts`. -/

theorem keyCount_append (m₁ m₂ : List (String × Nat)) (d : String) :
    keyCount (m₁ ++ m₂) d = keyCount m₁ d + keyCount m₂ d := by
  induction m₁ with
  | nil => simp [keyCount]
  | cons p rest ih => simp [keyCount, ih]; omega

theorem keyCount_eq_zero_of_not_mem {m : List (String × Nat)} {d : String}
    (h : d ∉ keysOf m) : keyCount m d = 0 := by
  induction m with
  | nil => rfl
  | cons p rest ih =>
      simp only [keysOf, List.map_cons, List.mem_cons, not_or] at h
      have hne : ¬p.1 = d := fun hc => h.1 hc.symm
      simp [keyCount, ih h.2, hne]

theorem keyCount_updateCount (m : List (String × Nat)) (d : String) (c : Nat)
    (e : String) :
    keyCount (updateCount m d c) e = keyCount m e + if d = e then c else 0 := by
  induction m with
  | nil => simp [updateCount, keyCount]
  | cons p rest ih =>
      by_cases hp : p.1 = d
      · simp only [updateCount, hp, if_true, keyCount]
        by_cases he : d = e <;> simp [he] <;> omega
      · simp only [updateCount, hp, if_false, keyCount, ih]
        omega

theorem mem_keysOf_updateCount {m : List (String × Nat)} {d : String} {c : Nat}
    {e : String} :
    e ∈ keysOf (updateCount m d c) ↔ e ∈ keysOf m ∨ e = d := by
  induction m with
  | nil => simp [updateCount, keysOf]
  | cons p rest ih =>
      by_cases hp : p.1 = d
      · subst hp
        simp only [updateCount, if_true, keysOf, List.map_cons, List.mem_cons]
        tauto
      · simp only [updateCount, hp, if_false, keysOf, List.map_cons,
          List.mem_cons] at *
        tauto

theorem nodup_keysOf_updateCount {m : List (String × Nat)} {d : String}
    {c : Nat} (h : (keysOf m).Nodup) : (keysOf (updateCount m d c)).Nodup := by
  induction m with
  | nil => simp [updateCount, keysOf]
  | cons p rest ih =>
      simp only [keysOf, List.map_cons, List.nodup_cons] at h
      by_cases hp : p.1 = d
      · simp only [updateCount, hp, if_true, keysOf, List.map_cons,
          List.nodup_cons]
        exact ⟨hp ▸ h.1, h.2⟩
      · simp only [updateCount, hp, if_false, keysOf, List.map_cons,
          List.nodup_cons]
        refine ⟨fun hc => ?_, ih h.2⟩
        rcases (mem_keysOf_updateCount (m := rest)).1 hc with hc | hc
        · exact h.1 hc
        · exact hp (hc ▸ rfl)

theorem pos_updateCount {m : List (String × Nat)} {d : String} {c : Nat}
    (hm : ∀ p ∈ m, 0 < p.2) (hc : 0 < c) :
    ∀ p ∈ updateCount m d c, 0 < p.2 := by
  induction m with
  | nil =>
      intro p hp
      simp only [updateCount, List.mem_singleton] at hp
      subst hp
      exact hc
  | cons q rest ih =>
      intro p hp
      by_cases hq : q.1 = d
      · simp only [updateCount, hq, if_true, List.mem_cons] at hp
        rcases hp with hp | hp
        · subst hp
          have := hm q (List.mem_cons_self q rest)
          simp only
          omega
        · exact hm p (List.mem_cons_of_mem _ hp)
      · simp only [updateCount, hq, if_false, List.mem_cons] at hp
        rcases hp with hp | hp
        · exact hp ▸ hm q (List.mem_cons_self q rest)
        · exact ih (fun r hr => hm r (List.mem_cons_of_mem _ hr)) p hp

theorem accumulate_cons (m : List (String × Nat)) (p : String × Nat)
    (ps : List (String × Nat)) :
    accumulate m (p :: ps) = accumulate (updateCount m p.1 p.2) ps := rfl

theorem accumulate_append (m ps₁ ps₂ : List (String × Nat)) :
    accumulate m (ps₁ ++ ps₂) = accumulate (accumulate m ps₁) ps₂ :=
  List.foldl_append ..

theorem keyCount_accumulate (ps : List (String × Nat)) :
    ∀ (m : List (String × Nat)) (e : String),
      keyCount (accumulate m ps) e = keyCount m e + keyCount ps e := by
  induction ps with
  | nil => simp [accumulate, keyCount]
  | cons p rest ih =>
      intro m e
      rw [accumulate_cons, ih, keyCount_updateCount]
      simp only [keyCount]
      omega

theorem mem_keysOf_accumulate (ps : List (String × Nat)) :
    ∀ (m : List (String × Nat)) (e : String),
      e ∈ keysOf (accumulate m ps) ↔ e ∈ keysOf m ∨ e ∈ keysOf ps := by
  induction ps with
  | nil => simp [accumulate, keysOf]
  | cons p rest ih =>
      intro m e
      rw [accumulate_cons, ih, mem_keysOf_updateCount]
      simp only [keysOf, List.map_cons, List.mem_cons]
      tauto

theorem nodup_keysOf_accumulate (ps : List (String × Nat)) :
    ∀ (m : List (String × Nat)), (keysOf m).Nodup →
      (keysOf (accumulate m ps)).Nodup := by
  induction ps with
  | nil => exact fun m h => h
  | cons p rest ih =>
      intro m h
      rw [accumulate_cons]
      exact ih _ (nodup_keysOf_updateCount h)

theorem pos_accumulate (ps : List (String × Nat)) :
    ∀ (m : List (String × Nat)), (∀ p ∈ m, 0 < p.2) →
      (∀ p ∈ ps, 0 < p.2) → ∀ p ∈ accumulate m ps, 0 < p.2 := by
  induction ps with
  | nil => exact fun m hm _ => hm
  | cons p rest ih =>
      intro m hm hps
      rw [accumulate_cons]
      exact ih _ (pos_updateCount hm (hps p (List.mem_cons_self p rest)))
        (fun r hr => hps r (List.mem_cons_of_mem _ hr))

theorem mem_keysOf_iff_keyCount_pos {m : List (String × Nat)}
    (hpos : ∀ p ∈ m, 0 < p.2) {e : String} :
    e ∈ keysOf m ↔ 0 < keyCount m e := by
  induction m with
  | nil => simp [keysOf, keyCount]
  | cons p rest ih =>
      simp only [keysOf, List.map_cons, List.mem_cons, keyCount]
      constructor
      · rintro (h | h)
        · have := hpos p (List.mem_cons_self p rest)
          simp [h]
          omega
        · have := (ih (fun r hr => hpos r (List.mem_cons_of_mem _ hr))).1 h
          omega
      · intro h
        by_cases hp : p.1 = e
        · exact Or.inl hp.symm
        · right
          refine (ih (fun r hr => hpos r (List.mem_cons_of_mem _ hr))).2 ?_
          simpa [hp] using h

theorem mem_pairs_iff {m : List (String × Nat)} (hnd : (keysOf m).Nodup)
    (hpos : ∀ p ∈ m, 0 < p.2) {d : String} {c : Nat} :
    (d, c) ∈ m ↔ keyCount m d = c ∧ 0 < c := by
  induction m with
  | nil =>
      simp only [List.not_mem_nil, false_iff, keyCount]
      omega
  | cons p rest ih =>
      simp only [keysOf, List.map_cons, List.nodup_cons] at hnd
      have hrest := ih hnd.2 (fun r hr => hpos r (List.mem_cons_of_mem _ hr))
      simp only [List.mem_cons, keyCount]
      by_cases hp : p.1 = d
      · have hz : keyCount rest d = 0 :=
          keyCount_eq_zero_of_not_mem (hp ▸ hnd.1)
        rw [if_pos hp, hz, Nat.add_zero]
        constructor
        · rintro (h | h)
          · have hc : c = p.2 := congrArg Prod.snd h
            subst hc
            exact ⟨rfl, hpos p (List.mem_cons_self p rest)⟩
          · exfalso
            obtain ⟨h1, h2⟩ := hrest.1 h
            omega
        · rintro ⟨hc, _⟩
          left
          have hpp : p = (p.1, p.2) := rfl
          rw [hpp, hp, hc]
      · rw [if_neg hp, Nat.zero_add]
        constructor
        · rintro (h | h)
          · exact absurd (congrArg Prod.fst h).symm hp
          · exact hrest.1 h
        · intro h
          exact Or.inr (hrest.2 h)

/-! Characterization of the chunked aggregation. -/

theorem chunksOfAux_flatten (n : Nat) :
    ∀ (fuel : Nat) (l : List α), l.length ≤ fuel →
      (chunksOfAux n fuel l).flatten = l := by
  intro fuel
  induction fuel with
  | zero =>
      intro l hl
      rw [List.length_eq_zero.1 (Nat.le_zero.1 hl)]
      rfl
  | succ fuel ih =>
      intro l hl
      cases l with
      | nil => rfl
      | cons x xs =>
          simp only [chunksOfAux, List.flatten_cons, List.cons_append,
            List.length_cons] at *
          rw [ih (xs.drop (n - 1)) (by simp [List.length_drop]; omega)]
          simp [List.take_append_drop]

theorem chunksOf_flatten (n : Nat) (l : List α) : (chunksOf n l).flatten = l :=
  chunksOfAux_flatten n l.length l (Nat.le_refl _)

theorem countVal_append (a b : List Cell) (d : String) :
    countVal (a ++ b) d = countVal a d + countVal b d := by
  simp [countVal, List.filter_append]

theorem countVal_eq_zero_of_not_mem {ch : List Cell} {d : String}
    (h : some d ∉ ch) : countVal ch d = 0 := by
  induction ch with
  | nil => rfl
  | cons c rest ih =>
      simp only [List.mem_cons, not_or] at h
      have hc : ¬c = some d := fun hc => h.1 hc.symm
      simp [countVal, List.filter_cons, hc] at *
      simpa [countVal] using ih h.2

theorem countVal_pos_of_mem {ch : List Cell} {d : String} (h : some d ∈ ch) :
    0 < countVal ch d := by
  induction ch with
  | nil => simp at h
  | cons c rest ih =>
      rcases List.mem_cons.1 h with h | h
      · simp [countVal, List.filter_cons, h.symm]
      · have := ih h
        by_cases hc : c = some d <;>
          simp [countVal, List.filter_cons, hc] at * <;> omega

theorem countVal_eq_count (ch : List Cell) (d : String) :
    countVal ch d = (ch.filterMap id).count d := by
  induction ch with
  | nil => rfl
  | cons c rest ih =>
      cases c with
      | none => simpa [countVal, List.filter_cons] using ih
      | some a =>
          by_cases ha : a = d
          · subst ha
            simp [countVal, List.filter_cons, List.count_cons] at *
            omega
          · have ha' : ¬(a == d) = true := by simpa using ha
            simp [countVal, List.filter_cons, List.count_cons, ha, ha'] at *
            exact ih

theorem keyCount_map_self {l : List String} (f : String → Nat)
    (hl : l.Nodup) (e : String) :
    keyCount (l.map fun d => (d, f d)) e = if e ∈ l then f e else 0 := by
  induction l with
  | nil => simp [keyCount]
  | cons a rest ih =>
      simp only [List.nodup_cons] at hl
      simp only [List.map_cons, keyCount, ih hl.2, List.mem_cons]
      by_cases ha : a = e
      · subst ha
        simp [hl.1]
      · have ha' : ¬e = a := fun h => ha h.symm
        simp [ha, ha']

theorem keyCount_valueCounts (ch : List Cell) (e : String) :
    keyCount (valueCounts ch) e = countVal ch e := by
  unfold valueCounts
  rw [keyCount_map_self _ (List.nodup_dedup _)]
  by_cases h : e ∈ (ch.filterMap id).dedup
  · simp [h]
  · rw [if_neg h]
    have hm : some e ∉ ch := fun hc =>
      h (List.mem_dedup.2 (List.mem_filterMap.2 ⟨some e, hc, rfl⟩))
    exact (countVal_eq_zero_of_not_mem hm).symm

theorem keysOf_valueCounts (ch : List Cell) :
    keysOf (valueCounts ch) = (ch.filterMap id).dedup := by
  simp only [keysOf, valueCounts, List.map_map]
  exact List.map_id _

theorem pos_valueCounts (ch : List Cell) : ∀ p ∈ valueCounts ch, 0 < p.2 := by
  intro p hp
  simp only [valueCounts, List.mem_map] at hp
  obtain ⟨d, hd, rfl⟩ := hp
  have : some d ∈ ch := by
    obtain ⟨a, ha, ha'⟩ := List.mem_filterMap.1 (List.mem_dedup.1 hd)
    exact ha' ▸ ha
  exact countVal_pos_of_mem this

theorem foldl_accumulate_eq (cs : List (List Cell)) :
    ∀ m : List (String × Nat),
      cs.foldl (fun m ch => accumulate m (valueCounts ch)) m
        = accumulate m ((cs.map valueCounts).flatten) := by
  induction cs with
  | nil => intro m; rfl
  | cons ch rest ih =>
      intro m
      simp only [List.foldl_cons, List.map_cons, List.flatten_cons]
      rw [ih, accumulate_append]

theorem keyCount_flatten_valueCounts (cs : List (List Cell)) (e : String) :
    keyCount ((cs.map valueCounts).flatten) e = countVal cs.flatten e := by
  induction cs with
  | nil => rfl
  | cons ch rest ih =>
      simp only [List.map_cons, List.flatten_cons]
      rw [keyCount_append, countVal_append, keyCount_valueCounts, ih]

theorem pos_flatten_valueCounts (cs : List (List Cell)) :
    ∀ p ∈ (cs.map valueCounts).flatten, 0 < p.2 := by
  intro p hp
  obtain ⟨l, hl, hpl⟩ := List.mem_flatten.1 hp
  obtain ⟨ch, _, rfl⟩ := List.mem_map.1 hl
  exact pos_valueCounts ch p hpl

theorem keyCount_chunkFold (col : List Cell) (n : Nat) (e : String) :
    keyCount (chunkFold col n) e = countVal col e := by
  unfold chunkFold
  rw [foldl_accumulate_eq, keyCount_accumulate, keyCount_flatten_valueCounts,
    chunksOf_flatten]
  simp [keyCount]

theorem nodup_keysOf_chunkFold (col : List Cell) (n : Nat) :
    (keysOf (chunkFold col n)).Nodup := by
  unfold chunkFold
  rw [foldl_accumulate_eq]
  exact nodup_keysOf_accumulate _ [] (by simp [keysOf])

theorem pos_chunkFold (col : List Cell) (n : Nat) :
    ∀ p ∈ chunkFold col n, 0 < p.2 := by
  unfold chunkFold
  rw [foldl_accumulate_eq]
  exact pos_accumulate _ [] (by simp) (pos_flatten_valueCounts _)

/-! Properties of the final sorted table. -/

theorem sortPairs_perm (m : List (String × Nat)) : (sortPairs m).Perm m :=
  List.perm_insertionSort keyLe m

theorem pairwise_keyLt_sortPairs {m : List (String × Nat)}
    (hnd : (keysOf m).Nodup) : (sortPairs m).Pairwise keyLt := by
  haveI : IsTotal (String × Nat) keyLe := ⟨keyLe_total⟩
  haveI : IsTrans (String × Nat) keyLe := ⟨fun _ _ _ => keyLe_trans⟩
  have h1 : (sortPairs m).Pairwise keyLe :=
    List.sorted_insertionSort keyLe m
  have h2 : (keysOf (sortPairs m)).Nodup :=
    (((sortPairs_perm m).map Prod.fst).nodup_iff).2 hnd
  have h3 : (sortPairs m).Pairwise fun a b => a.1 ≠ b.1 :=
    List.pairwise_map.mp h2
  exact (h1.and h3).imp fun h => h

theorem sortPairs_eq_of_keyCount {m₁ m₂ : List (String × Nat)}
    (hnd₁ : (keysOf m₁).Nodup) (hpos₁ : ∀ p ∈ m₁, 0 < p.2)
    (hnd₂ : (keysOf m₂).Nodup) (hpos₂ : ∀ p ∈ m₂, 0 < p.2)
    (h : ∀ d, keyCount m₁ d = keyCount m₂ d) :
    sortPairs m₁ = sortPairs m₂ := by
  have hmem : ∀ p : String × Nat, p ∈ m₁ ↔ p ∈ m₂ := by
    intro p
    have e₁ := mem_pairs_iff hnd₁ hpos₁ (d := p.1) (c := p.2)
    have e₂ := mem_pairs_iff hnd₂ hpos₂ (d := p.1) (c := p.2)
    rw [show p = (p.1, p.2) from rfl, e₁, e₂, h p.1]
  have hperm : m₁.Perm m₂ :=
    (List.perm_ext_iff_of_nodup (List.Nodup.of_map Prod.fst hnd₁)
      (List.Nodup.of_map Prod.fst hnd₂)).2 hmem
  haveI : IsAntisymm (String × Nat) keyLt := ⟨fun _ _ => keyLt_antisymm⟩
  exact List.eq_of_perm_of_sorted
    ((sortPairs_perm m₁).trans (hperm.trans (sortPairs_perm m₂).symm))
    (pairwise_keyLt_sortPairs hnd₁) (pairwise_keyLt_sortPairs hnd₂)

theorem sortPairs_chunkFold_eq (col : List Cell) (n₁ n₂ : Nat) :
    sortPairs (chunkFold col n₁) = sortPairs (chunkFold col n₂) :=
  sortPairs_eq_of_keyCount (nodup_keysOf_chunkFold col n₁)
    (pos_chunkFold col n₁) (nodup_keysOf_chunkFold col n₂)
    (pos_chunkFold col n₂)
    (fun d => (keyCount_chunkFold col n₁ d).trans
      (keyCount_chunkFold col n₂ d).symm)

theorem mem_sortPairs_chunkFold {col : List Cell} {n : Nat} {d : String}
    {c : Nat} :
    (d, c) ∈ sortPairs (chunkFold col n) ↔ countVal col d = c ∧ 0 < c := by
  rw [(sortPairs_perm (chunkFold col n)).mem_iff,
    mem_pairs_iff (nodup_keysOf_chunkFold col n) (pos_chunkFold col n),
    keyCount_chunkFold]

/-! Total mass of the table. -/

theorem countsSum_append (a b : List (String × Nat)) :
    countsSum (a ++ b) = countsSum a + countsSum b := by
  simp [countsSum]

theorem countsSum_updateCount (m : List (String × Nat)) (d : String)
    (c : Nat) : countsSum (updateCount m d c) = countsSum m + c := by
  induction m with
  | nil => simp [updateCount, countsSum]
  | cons p rest ih =>
      by_cases hp : p.1 = d
      · simp [updateCount, hp, countsSum]
        omega
      · simp [updateCount, hp, countsSum] at *
        omega

theorem countsSum_accumulate (ps : List (String × Nat)) :
    ∀ m : List (String × Nat),
      countsSum (accumulate m ps) = countsSum m + countsSum ps := by
  induction ps with
  | nil => simp [accumulate, countsSum]
  | cons p rest ih =>
      intro m
      rw [accumulate_cons, ih, countsSum_updateCount]
      simp [countsSum]
      omega

theorem countsSum_valueCounts (ch : List Cell) :
    countsSum (valueCounts ch) = (ch.filterMap id).length := by
  unfold countsSum valueCounts
  rw [List.map_map]
  have : (Prod.snd ∘ fun d => (d, countVal ch d)) = fun d => countVal ch d :=
    rfl
  rw [this]
  have : ((ch.filterMap id).dedup.map fun d => countVal ch d)
      = (ch.filterMap id).dedup.map fun d => (ch.filterMap id).count d := by
    exact List.map_congr_left fun d _ => countVal_eq_count ch d
  rw [this]
  exact List.sum_map_count_dedup_eq_length _

theorem countsSum_chunkFold (col : List Cell) (n : Nat) :
    countsSum (chunkFold col n) = (col.filterMap id).length := by
  unfold chunkFold
  rw [foldl_accumulate_eq, countsSum_accumulate]
  have h : ∀ cs : List (List Cell),
      countsSum ((cs.map valueCounts).flatten) = (cs.flatten.filterMap id).length := by
    intro cs
    induction cs with
    | nil => rfl
    | cons ch rest ih =>
        simp only [List.map_cons, List.flatten_cons]
        rw [countsSum_append, countsSum_valueCounts, ih,
          List.filterMap_append, List.length_append]
  rw [h, chunksOf_flatten]
  simp [countsSum]

theorem countsSum_sortPairs (m : List (String × Nat)) :
    countsSum (sortPairs m) = countsSum m :=
  ((sortPairs_perm m).map Prod.snd).sum_eq

/-! Characterization of the streaming extraction. -/

theorem writeStep_some (i : Nat) (td : String) (o : List Row)
    (ch : List Row) :
    writeStep i td (some o) ch
      = some (o ++ ch.filter fun r => cellAt r i = some td) := by
  unfold writeStep
  by_cases h : (ch.filter fun r => cellAt r i = some td).isEmpty
  · rw [if_pos h]
    rw [List.isEmpty_iff] at h
    simp [h]
  · rw [if_neg h]
    rfl

theorem write_foldl_some (i : Nat) (td : String) :
    ∀ (cs : List (List Row)) (o : List Row),
      cs.foldl (writeStep i td) (some o)
        = some (o ++ cs.flatten.filter fun r => cellAt r i = some td) := by
  intro cs
  induction cs with
  | nil => intro o; simp
  | cons ch rest ih =>
      intro o
      rw [List.foldl_cons, writeStep_some, ih]
      simp [List.filter_append]

theorem writeStep_none (i : Nat) (td : String) (ch : List Row) :
    writeStep i td none ch
      = if (ch.filter fun r => cellAt r i = some td).isEmpty
        then none
        else some (ch.filter fun r => cellAt r i = some td) := by
  unfold writeStep
  by_cases h : (ch.filter fun r => cellAt r i = some td).isEmpty
  · rw [if_pos h, if_pos h]
  · rw [if_neg h, if_neg h]
    rfl

theorem write_foldl_none (i : Nat) (td : String) :
    ∀ cs : List (List Row),
      cs.foldl (writeStep i td) none
        = if (cs.flatten.filter fun r => cellAt r i = some td).isEmpty
          then none
          else some (cs.flatten.filter fun r => cellAt r i = some td) := by
  intro cs
  induction cs with
  | nil => rfl
  | cons ch rest ih =>
      rw [List.foldl_cons, writeStep_none]
      by_cases h : (ch.filter fun r => cellAt r i = some td).isEmpty
      · rw [if_pos h, ih]
        rw [List.isEmpty_iff] at h
        simp [List.filter_append, h]
      · rw [if_neg h, write_foldl_some]
        rw [List.isEmpty_iff] at h
        have hne : (((ch :: rest).flatten).filter
            fun r => cellAt r i = some td) ≠ [] := by
          simp only [List.flatten_cons, List.filter_append]
          intro hc
          exact h (List.append_eq_nil.1 hc).1
        rw [if_neg (by simpa [List.isEmpty_iff] using hne)]
        simp [List.filter_append]

theorem write_truncated_day_eq {csv : Csv} {dc td : String} {n i : Nat}
    (hi : colIndex? csv.header dc = some i) :
    write_truncated_day csv dc td n
      = .ok (if (csv.rows.filter fun r => cellAt r i = some td).isEmpty
             then none
             else some (csv.rows.filter fun r => cellAt r i = some td)) := by
  simp only [write_truncated_day, hi]
  rw [write_foldl_none, chunksOf_flatten]

theorem countVal_map_cellAt (rows : List Row) (i : Nat) (td : String) :
    countVal (rows.map fun r => cellAt r i) td
      = (rows.filter fun r => cellAt r i = some td).length := by
  unfold countVal
  rw [List.filter_map, List.length_map]
  rfl

/-! Remaining bridge lemmas. -/

theorem colIndex?_eq_none_iff {header : List String} {col : String} :
    colIndex? header col = none ↔ col ∉ header := by
  induction header with
  | nil => simp [colIndex?]
  | cons h t ih =>
      by_cases hc : h = col
      · simp [colIndex?, hc]
      · have hc' : ¬col = h := fun h' => hc h'.symm
        simp [colIndex?, hc, hc', ih]

theorem colIndex?_isSome_of_mem {header : List String} {col : String}
    (h : col ∈ header) : ∃ i, colIndex? header col = some i := by
  cases hc : colIndex? header col with
  | none => exact absurd h (colIndex?_eq_none_iff.1 hc)
  | some i => exact ⟨i, rfl⟩

theorem length_filterMap_id_map (rows : List Row) (i : Nat) :
    ((rows.map fun r => cellAt r i).filterMap id).length
      = (rows.filter fun r => cellAt r i ≠ none).length := by
  induction rows with
  | nil => rfl
  | cons r rest ih =>
      simp only [List.map_cons, List.filterMap_cons, List.filter_cons]
      cases h : cellAt r i with
      | none => simpa using ih
      | some a => simpa using ih

theorem compute_daily_counts_ok {csv : Csv} {dc : String} {n i : Nat}
    (hi : colIndex? csv.header dc = some i) :
    compute_daily_counts csv dc n
      = .ok (sortPairs (chunkFold (csv.rows.map fun r => cellAt r i) n)) := by
  simp only [compute_daily_counts, hi]

/-! Verification of the specified properties. -/

/-- C2: for every source CSV and date column, and any two chunk sizes ≥ 1
(whether or not they evenly divide the number of rows),
`compute_daily_counts` returns identical daily-count tables: chunking does
not affect the aggregation result. -/
theorem C2_chunking_does_not_affect_counts (csv : Csv) (date_column : String)
    {c₁ c₂ : Nat} (hc₁ : 1 ≤ c₁) (hc₂ : 1 ≤ c₂) :
    compute_daily_counts csv date_column c₁
      = compute_daily_counts csv date_column c₂ := by
  cases hc : colIndex? csv.header date_column with
  | none => simp only [compute_daily_counts, hc]
  | some i =>
      rw [compute_daily_counts_ok hc, compute_daily_counts_ok hc,
        sortPairs_chunkFold_eq]

theorem C2_witness :
    compute_daily_counts
        ⟨["flightDate", "x"],
         [[some "2022-01-01", some "a"], [some "2022-01-02", some "b"],
          [some "2022-01-01", some "c"], [some "2022-01-02", some "d"],
          [some "2022-01-03", some "e"], [some "2022-01-02", some "f"]]⟩
        "flightDate" 2
      = compute_daily_counts
        ⟨["flightDate", "x"],
         [[some "2022-01-01", some "a"], [some "2022-01-02", some "b"],
          [some "2022-01-01", some "c"], [some "2022-01-02", some "d"],
          [some "2022-01-03", some "e"], [some "2022-01-02", some "f"]]⟩
        "flightDate" 4 :=
  C2_chunking_does_not_affect_counts _ "flightDate" (by decide) (by decide)

/-- C3: for every source CSV containing the date column, every target date
string and every chunk size ≥ 1, the output of `write_truncated_day` is
exactly the source rows whose date cell string-equals the target, in
original source order — and no file at all when no row matches. -/
theorem C3_truncated_content {csv : Csv} {date_column target : String}
    {n i : Nat} (hn : 1 ≤ n)
    (hi : colIndex? csv.header date_column = some i) :
    write_truncated_day csv date_column target n
      = .ok (if (csv.rows.filter fun r => cellAt r i = some target).isEmpty
             then none
             else some (csv.rows.filter fun r => cellAt r i = some target)) :=
  write_truncated_day_eq hi

theorem C3_witness :
    write_truncated_day
        ⟨["flightDate"],
         [[some "2022-01-01"], [some "2022-01-02"], [some "2022-01-01"]]⟩
        "flightDate" "2022-01-01" 2
      = .ok (if (([[some "2022-01-01"], [some "2022-01-02"],
                   [some "2022-01-01"]] : List Row).filter
                 fun r => cellAt r 0 = some "2022-01-01").isEmpty
             then none
             else some (([[some "2022-01-01"], [some "2022-01-02"],
                   [some "2022-01-01"]] : List Row).filter
                 fun r => cellAt r 0 = some "2022-01-01")) :=
  C3_truncated_content (by decide) (by decide)

/-- C4: for every non-empty daily count table, `get_middle_date` returns the
date at zero-based index `length / 2` of the table sorted ascending by date;
in particular on the table of the spec's concrete scenario it returns
`2022-01-02`. -/
theorem C4_get_middle_date {t : List (String × Nat)} (hne : t ≠ []) :
    (∃ h : (sortPairs t).length / 2 < (sortPairs t).length,
        get_middle_date t
          = some ((sortPairs t).get ⟨(sortPairs t).length / 2, h⟩).1)
      ∧ get_middle_date
          [("2022-01-01", 2), ("2022-01-02", 3), ("2022-01-03", 1)]
          = some "2022-01-02" := by
  constructor
  · have hlen : (sortPairs t).length = t.length := (sortPairs_perm t).length_eq
    have hpos : 0 < (sortPairs t).length := by
      rw [hlen]
      exact List.length_pos.2 hne
    have hlt : (sortPairs t).length / 2 < (sortPairs t).length :=
      Nat.div_lt_self hpos (by omega)
    refine ⟨hlt, ?_⟩
    show ((sortPairs t).get? ((sortPairs t).length / 2)).map Prod.fst = _
    rw [List.get?_eq_get hlt]
    rfl
  · decide

theorem C4_witness :
    (∃ h : (sortPairs [("2022-01-02", 3), ("2022-01-01", 2)]).length / 2
        < (sortPairs [("2022-01-02", 3), ("2022-01-01", 2)]).length,
      get_middle_date [("2022-01-02", 3), ("2022-01-01", 2)]
        = some ((sortPairs [("2022-01-02", 3), ("2022-01-01", 2)]).get
            ⟨(sortPairs [("2022-01-02", 3), ("2022-01-01", 2)]).length / 2,
              h⟩).1)
      ∧ get_middle_date
          [("2022-01-01", 2), ("2022-01-02", 3), ("2022-01-03", 1)]
          = some "2022-01-02" :=
  C4_get_middle_date (by decide)

/-- C7: for every source CSV (containing the date column) and every target
date matched by no row, `write_truncated_day` creates no output file at all,
and this no-output condition is silent — the call returns normally instead
of raising an error. -/
theorem C7_no_match_silent {csv : Csv} {date_column target : String}
    {n i : Nat} (hn : 1 ≤ n)
    (hi : colIndex? csv.header date_column = some i)
    (hno : ∀ r ∈ csv.rows, cellAt r i ≠ some target) :
    write_truncated_day csv date_column target n = .ok none := by
  rw [write_truncated_day_eq hi]
  have hfil : (csv.rows.filter fun r => cellAt r i = some target) = [] :=
    List.filter_eq_nil_iff.2 (by
      intro r hr
      simpa using hno r hr)
  rw [hfil]
  rfl

theorem C7_witness :
    write_truncated_day ⟨["flightDate"], [[some "2022-01-01"]]⟩
      "flightDate" "2099-12-31" 1 = .ok none :=
  @C7_no_match_silent ⟨["flightDate"], [[some "2022-01-01"]]⟩
    "flightDate" "2099-12-31" 1 0 (by decide) (by decide) (by decide)

/-- C8: if the named date column is absent from the source CSV's schema, the
aggregation stage fails at read time with a column-not-found error
(`usecols` is validated when the reader is constructed), and the extraction
stage fails with a missing-column error (the check on the first chunk —
which exists even for a zero-row source — finds the column absent). -/
theorem C8_missing_column {csv : Csv} {date_column target : String} {n : Nat}
    (hn : 1 ≤ n) (hcol : date_column ∉ csv.header) :
    compute_daily_counts csv date_column n
        = .error "Usecols do not match columns"
      ∧ write_truncated_day csv date_column target n
        = .error "Column not found in CSV." := by
  have hc : colIndex? csv.header date_column = none :=
    colIndex?_eq_none_iff.2 hcol
  exact ⟨by simp only [compute_daily_counts, hc],
    by simp only [write_truncated_day, hc]⟩

theorem C8_witness :
    compute_daily_counts ⟨["a", "b"], [[some "1", some "2"]]⟩ "flightDate" 3
        = .error "Usecols do not match columns"
      ∧ write_truncated_day ⟨["a", "b"], [[some "1", some "2"]]⟩
          "flightDate" "2022-01-01" 3
          = .error "Column not found in CSV." :=
  C8_missing_column (by decide) (by decide)

/-- C1: for every source CSV containing the date column, chunk sizes ≥ 1 for
each pass, and target date taken from the daily count table, the file
written by `write_truncated_day` exists and its number of data rows equals
the count recorded for that date by `compute_daily_counts`. -/
theorem C1_output_count_matches_table {csv : Csv} {date_column : String}
    {c₁ c₂ : Nat} (hc₁ : 1 ≤ c₁) (hc₂ : 1 ≤ c₂)
    {table : List (String × Nat)} {d : String} {cnt : Nat}
    (ht : compute_daily_counts csv date_column c₁ = .ok table)
    (hd : (d, cnt) ∈ table) :
    ∃ out : List Row,
      write_truncated_day csv date_column d c₂ = .ok (some out)
        ∧ out.length = cnt := by
  cases hc : colIndex? csv.header date_column with
  | none =>
      rw [compute_daily_counts, hc] at ht
      exact Except.noConfusion ht
  | some i =>
      rw [compute_daily_counts_ok hc] at ht
      have htab := Except.ok.inj ht
      subst htab
      obtain ⟨hcv, hpos⟩ := mem_sortPairs_chunkFold.1 hd
      have hlen : (csv.rows.filter fun r => cellAt r i = some d).length = cnt := by
        rw [← countVal_map_cellAt, hcv]
      refine ⟨csv.rows.filter fun r => cellAt r i = some d, ?_, hlen⟩
      rw [write_truncated_day_eq hc]
      have hne : (csv.rows.filter fun r => cellAt r i = some d) ≠ [] := by
        intro h0
        rw [h0] at hlen
        simp at hlen
        omega
      rw [if_neg (by simpa [List.isEmpty_iff] using hne)]

theorem C1_witness :
    ∃ out : List Row,
      write_truncated_day
          ⟨["flightDate", "x"],
           [[some "2022-01-01", some "a"], [some "2022-01-02", some "b"],
            [some "2022-01-01", some "c"], [some "2022-01-02", some "d"],
            [some "2022-01-03", some "e"], [some "2022-01-02", some "f"]]⟩
          "flightDate" "2022-01-02" 3 = .ok (some out)
        ∧ out.length = 3 :=
  @C1_output_count_matches_table
    ⟨["flightDate", "x"],
     [[some "2022-01-01", some "a"], [some "2022-01-02", some "b"],
      [some "2022-01-01", some "c"], [some "2022-01-02", some "d"],
      [some "2022-01-03", some "e"], [some "2022-01-02", some "f"]]⟩
    "flightDate" 2 3 (by decide) (by decide)
    [("2022-01-01", 2), ("2022-01-02", 3), ("2022-01-03", 1)]
    "2022-01-02" 3 (by decide) (by decide)

/-- C5 counterexample: a source CSV with one data row whose date cell is
empty (missing).  `compute_daily_counts` returns the empty table, whose
counts sum to 0, while the source has 1 data row — so the sum of counts
does not equal the total row count on every source. -/
theorem C5_counterexample :
    compute_daily_counts ⟨["flightDate", "x"], [[none, some "1"]]⟩
        "flightDate" 1 = .ok []
      ∧ countsSum []
          ≠ (⟨["flightDate", "x"], [[none, some "1"]]⟩ : Csv).rows.length :=
  ⟨by decide, by decide⟩

/-- C5 (amended): for every source CSV containing the date column and every
chunk size ≥ 1, the counts in the daily count table sum to the number of
data rows whose date cell is non-missing; in particular they sum to the
total number of data rows whenever no date value is missing. -/
theorem C5_sum_of_counts {csv : Csv} {date_column : String} {n i : Nat}
    (hn : 1 ≤ n) (hi : colIndex? csv.header date_column = some i)
    {t : List (String × Nat)}
    (ht : compute_daily_counts csv date_column n = .ok t) :
    countsSum t = (csv.rows.filter fun r => cellAt r i ≠ none).length
      ∧ ((∀ r ∈ csv.rows, cellAt r i ≠ none) →
          countsSum t = csv.rows.length) := by
  rw [compute_daily_counts_ok hi] at ht
  have htab := Except.ok.inj ht
  subst htab
  have hsum : countsSum (sortPairs (chunkFold
        (csv.rows.map fun r => cellAt r i) n))
      = (csv.rows.filter fun r => cellAt r i ≠ none).length := by
    rw [countsSum_sortPairs, countsSum_chunkFold, length_filterMap_id_map]
  refine ⟨hsum, fun hall => ?_⟩
  rw [hsum]
  have hfil : (csv.rows.filter fun r => cellAt r i ≠ none) = csv.rows :=
    List.filter_eq_self.2 (by
      intro r hr
      simpa using hall r hr)
  rw [hfil]

theorem C5_witness :
    countsSum [("2022-01-01", 2)]
        = ((⟨["flightDate"], [[some "2022-01-01"], [some "2022-01-01"]]⟩ :
            Csv).rows.filter fun r => cellAt r 0 ≠ none).length
      ∧ ((∀ r ∈ (⟨["flightDate"],
            [[some "2022-01-01"], [some "2022-01-01"]]⟩ : Csv).rows,
            cellAt r 0 ≠ none) →
          countsSum [("2022-01-01", 2)]
            = (⟨["flightDate"],
                [[some "2022-01-01"], [some "2022-01-01"]]⟩ :
                Csv).rows.length) :=
  @C5_sum_of_counts ⟨["flightDate"], [[some "2022-01-01"], [some "2022-01-01"]]⟩
    "flightDate" 1 0 (by decide) (by decide) [("2022-01-01", 2)] (by decide)

/-- C6: when the source has zero data rows (so the daily count table is
empty) and no middle-date override is supplied, the run aborts with the
uncaught index-out-of-range failure raised by the date selection. -/
theorem C6_empty_table_fatal {csv : Csv} {date_column : String} {n : Nat}
    (hn : 1 ≤ n) (hcol : date_column ∈ csv.header) (hrows : csv.rows = []) :
    runMain csv date_column n none
      = .error "IndexError: single positional indexer is out-of-bounds" := by
  obtain ⟨i, hi⟩ := colIndex?_isSome_of_mem hcol
  have hcompute : compute_daily_counts csv date_column n = .ok [] := by
    rw [compute_daily_counts_ok hi, hrows]
    rfl
  unfold runMain
  rw [hcompute]
  rfl

theorem C6_witness :
    runMain ⟨["flightDate"], []⟩ "flightDate" 5 none
      = .error "IndexError: single positional indexer is out-of-bounds" :=
  C6_empty_table_fatal (by decide) (by decide) (by decide)

/-- C9 counterexample: an oracle whose first (default-configuration) attempt
fails with an exception that is not a `ValueError` while the second attempt
would succeed.  `load_dataset` raises the first failure immediately instead
of returning the result of the succeeding attempt, so the unconditional
fallback ladder described by the claim does not hold. -/
theorem C9_counterexample :
    load_dataset fetchProbe
        = .error ⟨false, "ConnectionError: download failed"⟩
      ∧ fetchProbe ⟨some "latin-1", none, false, false⟩ = .ok () :=
  ⟨rfl, rfl⟩

/-- C9 (amended): `load_dataset` tries its three parsing configurations in
order and returns the result of the first attempt that succeeds, and when
every attempt fails only the final attempt's failure is raised — provided
the discarded failures are `ValueError`s, the only class the ladder
catches; a failure of any other class is raised immediately and no later
configuration is tried. -/
theorem C9_fallback_ladder {α : Type} (fetch : ParseConfig → Except PyError α) :
    (∀ v, fetch ⟨none, none, false, false⟩ = .ok v →
        load_dataset fetch = .ok v)
    ∧ (∀ e₀ v, fetch ⟨none, none, false, false⟩ = .error e₀ →
        e₀.isValueError = true →
        fetch ⟨some "latin-1", none, false, false⟩ = .ok v →
        load_dataset fetch = .ok v)
    ∧ (∀ e₀ e₁ v, fetch ⟨none, none, false, false⟩ = .error e₀ →
        e₀.isValueError = true →
        fetch ⟨some "latin-1", none, false, false⟩ = .error e₁ →
        e₁.isValueError = true →
        fetch ⟨some "latin-1", some "python", true, true⟩ = .ok v →
        load_dataset fetch = .ok v)
    ∧ (∀ e₀ e₁ e₂, fetch ⟨none, none, false, false⟩ = .error e₀ →
        e₀.isValueError = true →
        fetch ⟨some "latin-1", none, false, false⟩ = .error e₁ →
        e₁.isValueError = true →
        fetch ⟨some "latin-1", some "python", true, true⟩ = .error e₂ →
        load_dataset fetch = .error e₂)
    ∧ (∀ e₀, fetch ⟨none, none, false, false⟩ = .error e₀ →
        e₀.isValueError = false →
        load_dataset fetch = .error e₀)
    ∧ (∀ e₀ e₁, fetch ⟨none, none, false, false⟩ = .error e₀ →
        e₀.isValueError = true →
        fetch ⟨some "latin-1", none, false, false⟩ = .error e₁ →
        e₁.isValueError = false →
        load_dataset fetch = .error e₁) := by
  refine ⟨?_, ?_, ?_, ?_, ?_, ?_⟩
  · intro v h0
    simp [load_dataset, attempts, tryAttempts, h0]
  · intro e₀ v h0 hv0 h1
    simp [load_dataset, attempts, tryAttempts, h0, hv0, h1]
  · intro e₀ e₁ v h0 hv0 h1 hv1 h2
    simp [load_dataset, attempts, tryAttempts, h0, hv0, h1, hv1, h2]
  · intro e₀ e₁ e₂ h0 hv0 h1 hv1 h2
    by_cases hv2 : e₂.isValueError = true
    · simp [load_dataset, attempts, tryAttempts, h0, hv0, h1, hv1, h2, hv2]
    · simp [load_dataset, attempts, tryAttempts, h0, hv0, h1, hv1, h2, hv2]
  · intro e₀ h0 hv0
    simp [load_dataset, attempts, tryAttempts, h0, hv0]
  · intro e₀ e₁ h0 hv0 h1 hv1
    simp [load_dataset, attempts, tryAttempts, h0, hv0, h1, hv1]

theorem C9_witness :
    load_dataset fetchFail
      = .error ⟨true, "latin-1/python: parse failed"⟩ :=
  (C9_fallback_ladder fetchFail).2.2.2.1
    ⟨true, "default/c: parse failed"⟩
    ⟨true, "latin-1/c: parse failed"⟩
    ⟨true, "latin-1/python: parse failed"⟩
    rfl rfl rfl rfl rfl

/-- C10: a source row whose date cell is missing is counted under no key of
the daily count table — the counts sum to the number of rows with a
non-missing date — and, being unequal to any target date, such a row never
appears in the truncated output. -/
theorem C10_missing_dates_excluded {csv : Csv} {date_column : String}
    {n i : Nat} (hn : 1 ≤ n)
    (hi : colIndex? csv.header date_column = some i)
    {t : List (String × Nat)}
    (ht : compute_daily_counts csv date_column n = .ok t) :
    countsSum t = (csv.rows.filter fun r => cellAt r i ≠ none).length
      ∧ ∀ (target : String) (res : List Row),
          write_truncated_day csv date_column target n = .ok (some res) →
          ∀ r ∈ res, cellAt r i ≠ none := by
  rw [compute_daily_counts_ok hi] at ht
  have htab := Except.ok.inj ht
  subst htab
  constructor
  · rw [countsSum_sortPairs, countsSum_chunkFold, length_filterMap_id_map]
  · intro target res hw r hr
    rw [write_truncated_day_eq hi] at hw
    by_cases hf : (csv.rows.filter fun r => cellAt r i = some target).isEmpty
    · rw [if_pos hf] at hw
      exact Option.noConfusion (Except.ok.inj hw)
    · rw [if_neg hf] at hw
      have hres := Option.some.inj (Except.ok.inj hw)
      subst hres
      have hmem := List.of_mem_filter hr
      simp only [decide_eq_true_eq] at hmem
      rw [hmem]
      simp

theorem C10_witness :
    countsSum [("2022-01-01", 1)]
        = ((⟨["flightDate", "x"],
            [[some "2022-01-01", some "a"], [none, some "b"]]⟩ :
            Csv).rows.filter fun r => cellAt r 0 ≠ none).length
      ∧ ∀ (target : String) (res : List Row),
          write_truncated_day
              ⟨["flightDate", "x"],
               [[some "2022-01-01", some "a"], [none, some "b"]]⟩
              "flightDate" target 2 = .ok (some res) →
          ∀ r ∈ res, cellAt r 0 ≠ none :=
  @C10_missing_dates_excluded
    ⟨["flightDate", "x"], [[some "2022-01-01", some "a"], [none, some "b"]]⟩
    "flightDate" 2 0 (by decide) (by decide) [("2022-01-01", 1)] (by decide)

end DataMiningFlight
